import Mathlib

/-!
Shallow embedding of the `bv` crate's lazy logic adapters (`src/adapter.rs`).

An operand is anything implementing the `Bits` capability: a bit length, a
single-bit read by position, and a block (machine-word) read by block index.
We embed an operand as a record of those observations.  A block of width `w`
is a natural number; the bit `j` of a block is `Nat.testBit · j`.  Reads by
an operand may fail (in Rust, a bounds panic chosen by the implementer), so
`get_bit` and `get_block` return `Option`; a view built on top of operands
propagates a failing read unchanged.

The adapter structures `BitsNot`, `BitsBinOp`, `BitsAnd`, `BitsOr`,
`BitsXor` mirror the Rust structs, generic over the operand type exactly as
the Rust generics are; the trait-impl methods are embedded at the operand
instantiations the development needs (`Bits w` for plain operands,
`BitSliceable w R` for sliceable ones).
-/

/-- The `Bits` capability (trait `Bits` of the crate, consumed by the
adapters): bit length, bit read, block read, at block width `w`. -/
structure Bits (w : Nat) where
  bit_len : Nat
  get_bit : Nat → Option Bool
  get_block : Nat → Option Nat

/-- The `BitSliceable<R>` capability together with `Bits`: an operand that
can also be restricted to a sub-range `range : R`, the result being again a
`Bits` of the same block width. -/
structure BitSliceable (w : Nat) (R : Type) where
  toBits : Bits w
  bit_slice : R → Bits w

/-- `pub struct BitsNot<T>(T);` — the NOT view, generic over its operand. -/
structure BitsNot (α : Type) where
  op : α

/-- `struct BitsBinOp<T, U> { op1: T, op2: U, len: u64 }` — bookkeeping for
the binary views: the two operands and the cached reconciled length. -/
structure BitsBinOp (α β : Type) where
  op1 : α
  op2 : β
  len : Nat

/-- `pub struct BitsAnd<T, U>(BitsBinOp<T, U>);` -/
structure BitsAnd (α β : Type) where
  bin : BitsBinOp α β

/-- `pub struct BitsOr<T, U>(BitsBinOp<T, U>);` -/
structure BitsOr (α β : Type) where
  bin : BitsBinOp α β

/-- `pub struct BitsXor<T, U>(BitsBinOp<T, U>);` -/
structure BitsXor (α β : Type) where
  bin : BitsBinOp α β

/-- Rust `!x` on a `w`-bit unsigned block: complement of the low `w` bits. -/
def blockNot (w x : Nat) : Nat := x ^^^ (2 ^ w - 1)

/-- `BitsBinOp::new`: caches `len = min(op1.bit_len(), op2.bit_len())`. -/
def BitsBinOp.new {w : Nat} (op1 op2 : Bits w) : BitsBinOp (Bits w) (Bits w) :=
  ⟨op1, op2, min op1.bit_len op2.bit_len⟩

/-- `BitsBinOp::bit1`: direct pass-through to operand 1's `get_bit`. -/
def BitsBinOp.bit1 {w : Nat} (v : BitsBinOp (Bits w) (Bits w)) (position : Nat) : Option Bool :=
  v.op1.get_bit position

/-- `BitsBinOp::bit2`: direct pass-through to operand 2's `get_bit`. -/
def BitsBinOp.bit2 {w : Nat} (v : BitsBinOp (Bits w) (Bits w)) (position : Nat) : Option Bool :=
  v.op2.get_bit position

/-- `BitsBinOp::block1`: direct pass-through to operand 1's `get_block`. -/
def BitsBinOp.block1 {w : Nat} (v : BitsBinOp (Bits w) (Bits w)) (position : Nat) : Option Nat :=
  v.op1.get_block position

/-- `BitsBinOp::block2`: direct pass-through to operand 2's `get_block`. -/
def BitsBinOp.block2 {w : Nat} (v : BitsBinOp (Bits w) (Bits w)) (position : Nat) : Option Nat :=
  v.op2.get_block position

/-- `impl Bits for BitsNot<T>`: `bit_len` is the operand's bit length. -/
def BitsNot.bit_len {w : Nat} (v : BitsNot (Bits w)) : Nat :=
  v.op.bit_len

/-- `impl Bits for BitsNot<T>`: `get_bit` is `!self.0.get_bit(position)`. -/
def BitsNot.get_bit {w : Nat} (v : BitsNot (Bits w)) (position : Nat) : Option Bool :=
  (v.op.get_bit position).map fun b => !b

/-- `impl Bits for BitsNot<T>`: `get_block` is `!self.0.get_block(position)`. -/
def BitsNot.get_block {w : Nat} (v : BitsNot (Bits w)) (position : Nat) : Option Nat :=
  (v.op.get_block position).map fun x => blockNot w x

/-- `impl Bits for BitsAnd<T, U>`: `bit_len` is the cached `self.0.len`. -/
def BitsAnd.bit_len {w : Nat} (v : BitsAnd (Bits w) (Bits w)) : Nat :=
  v.bin.len

/-- `impl Bits for BitsAnd<T, U>`: `self.0.bit1(position) & self.0.bit2(position)`. -/
def BitsAnd.get_bit {w : Nat} (v : BitsAnd (Bits w) (Bits w)) (position : Nat) : Option Bool :=
  (v.bin.bit1 position).bind fun b1 => (v.bin.bit2 position).map fun b2 => b1 && b2

/-- `impl Bits for BitsAnd<T, U>`: `self.0.block1(position) & self.0.block2(position)`. -/
def BitsAnd.get_block {w : Nat} (v : BitsAnd (Bits w) (Bits w)) (position : Nat) : Option Nat :=
  (v.bin.block1 position).bind fun x => (v.bin.block2 position).map fun y => x &&& y

/-- `impl Bits for BitsOr<T, U>`: `bit_len` is the cached `self.0.len`. -/
def BitsOr.bit_len {w : Nat} (v : BitsOr (Bits w) (Bits w)) : Nat :=
  v.bin.len

/-- `impl Bits for BitsOr<T, U>`: `self.0.bit1(position) | self.0.bit2(position)`. -/
def BitsOr.get_bit {w : Nat} (v : BitsOr (Bits w) (Bits w)) (position : Nat) : Option Bool :=
  (v.bin.bit1 position).bind fun b1 => (v.bin.bit2 position).map fun b2 => b1 || b2

/-- `impl Bits for BitsOr<T, U>`: `self.0.block1(position) | self.0.block2(position)`. -/
def BitsOr.get_block {w : Nat} (v : BitsOr (Bits w) (Bits w)) (position : Nat) : Option Nat :=
  (v.bin.block1 position).bind fun x => (v.bin.block2 position).map fun y => x ||| y

/-- `impl Bits for BitsXor<T, U>`: `bit_len` is the cached `self.0.len`. -/
def BitsXor.bit_len {w : Nat} (v : BitsXor (Bits w) (Bits w)) : Nat :=
  v.bin.len

/-- `impl Bits for BitsXor<T, U>`: `self.0.bit1(position) ^ self.0.bit2(position)`. -/
def BitsXor.get_bit {w : Nat} (v : BitsXor (Bits w) (Bits w)) (position : Nat) : Option Bool :=
  (v.bin.bit1 position).bind fun b1 => (v.bin.bit2 position).map fun b2 => Bool.xor b1 b2

/-- `impl Bits for BitsXor<T, U>`: `self.0.block1(position) ^ self.0.block2(position)`. -/
def BitsXor.get_block {w : Nat} (v : BitsXor (Bits w) (Bits w)) (position : Nat) : Option Nat :=
  (v.bin.block1 position).bind fun x => (v.bin.block2 position).map fun y => x ^^^ y

/-- Repackage a NOT view as a `Bits` operand (Rust: `BitsNot<T> : Bits`). -/
def BitsNot.toBits {w : Nat} (v : BitsNot (Bits w)) : Bits w :=
  ⟨v.bit_len, v.get_bit, v.get_block⟩

/-- Repackage an AND view as a `Bits` operand (Rust: `BitsAnd<T, U> : Bits`). -/
def BitsAnd.toBits {w : Nat} (v : BitsAnd (Bits w) (Bits w)) : Bits w :=
  ⟨v.bit_len, v.get_bit, v.get_block⟩

/-- Repackage an OR view as a `Bits` operand (Rust: `BitsOr<T, U> : Bits`). -/
def BitsOr.toBits {w : Nat} (v : BitsOr (Bits w) (Bits w)) : Bits w :=
  ⟨v.bit_len, v.get_bit, v.get_block⟩

/-- Repackage a XOR view as a `Bits` operand (Rust: `BitsXor<T, U> : Bits`). -/
def BitsXor.toBits {w : Nat} (v : BitsXor (Bits w) (Bits w)) : Bits w :=
  ⟨v.bit_len, v.get_bit, v.get_block⟩

/-- `BitsLogic::bits_not` (borrowing constructor). -/
def bits_not {w : Nat} (a : Bits w) : BitsNot (Bits w) := ⟨a⟩

/-- `BitsLogic::into_bits_not` (consuming constructor). -/
def into_bits_not {w : Nat} (a : Bits w) : BitsNot (Bits w) := ⟨a⟩

/-- `BitsLogic::bits_and` (borrowing constructor). -/
def bits_and {w : Nat} (a other : Bits w) : BitsAnd (Bits w) (Bits w) :=
  ⟨BitsBinOp.new a other⟩

/-- `BitsLogic::into_bits_and` (consuming constructor). -/
def into_bits_and {w : Nat} (a other : Bits w) : BitsAnd (Bits w) (Bits w) :=
  ⟨BitsBinOp.new a other⟩

/-- `BitsLogic::bits_or` (borrowing constructor). -/
def bits_or {w : Nat} (a other : Bits w) : BitsOr (Bits w) (Bits w) :=
  ⟨BitsBinOp.new a other⟩

/-- `BitsLogic::into_bits_or` (consuming constructor). -/
def into_bits_or {w : Nat} (a other : Bits w) : BitsOr (Bits w) (Bits w) :=
  ⟨BitsBinOp.new a other⟩

/-- `BitsLogic::bits_xor` (borrowing constructor). -/
def bits_xor {w : Nat} (a other : Bits w) : BitsXor (Bits w) (Bits w) :=
  ⟨BitsBinOp.new a other⟩

/-- `BitsLogic::into_bits_xor` (consuming constructor). -/
def into_bits_xor {w : Nat} (a other : Bits w) : BitsXor (Bits w) (Bits w) :=
  ⟨BitsBinOp.new a other⟩

/-- `BitsBinOp::new` instantiated at sliceable operands (the same generic
`new`, at `T = U = ` a type that is both `Bits` and `BitSliceable<R>`). -/
def BitsBinOp.newS {w : Nat} {R : Type} (op1 op2 : BitSliceable w R) :
    BitsBinOp (BitSliceable w R) (BitSliceable w R) :=
  ⟨op1, op2, min op1.toBits.bit_len op2.toBits.bit_len⟩

/-- `bits_not` instantiated at a sliceable operand. -/
def bits_notS {w : Nat} {R : Type} (a : BitSliceable w R) : BitsNot (BitSliceable w R) := ⟨a⟩

/-- `bits_and` instantiated at sliceable operands. -/
def bits_andS {w : Nat} {R : Type} (a other : BitSliceable w R) :
    BitsAnd (BitSliceable w R) (BitSliceable w R) :=
  ⟨BitsBinOp.newS a other⟩

/-- `bits_or` instantiated at sliceable operands. -/
def bits_orS {w : Nat} {R : Type} (a other : BitSliceable w R) :
    BitsOr (BitSliceable w R) (BitSliceable w R) :=
  ⟨BitsBinOp.newS a other⟩

/-- `bits_xor` instantiated at sliceable operands. -/
def bits_xorS {w : Nat} {R : Type} (a other : BitSliceable w R) :
    BitsXor (BitSliceable w R) (BitSliceable w R) :=
  ⟨BitsBinOp.newS a other⟩

/-- `impl BitSliceable for BitsNot<T>`: `BitsNot(self.0.bit_slice(range))`. -/
def BitsNot.bit_slice {w : Nat} {R : Type} (v : BitsNot (BitSliceable w R)) (range : R) :
    BitsNot (Bits w) :=
  ⟨v.op.bit_slice range⟩

/-- `impl BitSliceable for BitsAnd<T, U>`:
`BitsAnd(BitsBinOp::new(self.0.op1.bit_slice(range.clone()), self.0.op2.bit_slice(range)))`;
a clone of the range is the same range value. -/
def BitsAnd.bit_slice {w : Nat} {R : Type}
    (v : BitsAnd (BitSliceable w R) (BitSliceable w R)) (range : R) :
    BitsAnd (Bits w) (Bits w) :=
  ⟨BitsBinOp.new (v.bin.op1.bit_slice range) (v.bin.op2.bit_slice range)⟩

/-- `impl BitSliceable for BitsOr<T, U>`: slice both operands, rebuild. -/
def BitsOr.bit_slice {w : Nat} {R : Type}
    (v : BitsOr (BitSliceable w R) (BitSliceable w R)) (range : R) :
    BitsOr (Bits w) (Bits w) :=
  ⟨BitsBinOp.new (v.bin.op1.bit_slice range) (v.bin.op2.bit_slice range)⟩

/-- `impl BitSliceable for BitsXor<T, U>`: slice both operands, rebuild. -/
def BitsXor.bit_slice {w : Nat} {R : Type}
    (v : BitsXor (BitSliceable w R) (BitSliceable w R)) (range : R) :
    BitsXor (Bits w) (Bits w) :=
  ⟨BitsBinOp.new (v.bin.op1.bit_slice range) (v.bin.op2.bit_slice range)⟩

/-- Block-path/bit-path agreement for an operand: unpacking `get_block i`
bit by bit matches `get_bit` at the corresponding positions (bit `j` of
block `i` sits at position `i * w + j`), for positions below `bit_len`. -/
def blockBitAgree (w : Nat) (b : Bits w) : Prop :=
  ∀ i j : Nat, j < w → i * w + j < b.bit_len →
    ∀ blk : Nat, b.get_block i = some blk →
      b.get_bit (i * w + j) = some (blk.testBit j)

/-- Little-endian packing of a list of bits into a natural number. -/
def packBits : List Bool → Nat
  | [] => 0
  | b :: bs => (if b then 1 else 0) + 2 * packBits bs

/-- A concrete well-behaved operand built from a list of bits, for use as a
test input: in-range reads succeed, out-of-range reads fail. -/
def ofList (w : Nat) (l : List Bool) : Bits w :=
  ⟨l.length,
   fun p => l[p]?,
   fun i => if i * w < l.length then some (packBits ((l.drop (i * w)).take w)) else none⟩

/-- A concrete sliceable operand: slicing by `start : Nat` drops a prefix. -/
def ofListS (w : Nat) (l : List Bool) : BitSliceable w Nat :=
  ⟨ofList w l, fun start => ofList w (l.drop start)⟩

/-- Helper: complementing a `w`-bit block flips exactly the bits below `w`. -/
theorem blockNot_testBit {w x j : Nat} (hj : j < w) :
    (blockNot w x).testBit j = !(x.testBit j) := by
  simp [blockNot, Nat.testBit_xor, Nat.testBit_two_pow_sub_one, hj]

/-- Claim C1: for operands `A`, `B` of the same block type and any position
`p` below `m = min(bit_len A, bit_len B)`, the AND view's `get_bit p` is the
conjunction of the operands' bits at `p`, the OR view's is the disjunction,
and the XOR view's is the exclusive-or. -/
theorem logic_get_bit_truth_table {w : Nat} (A B : Bits w) (p : Nat)
    (hp : p < min A.bit_len B.bit_len) (a b : Bool)
    (ha : A.get_bit p = some a) (hb : B.get_bit p = some b) :
    (bits_and A B).get_bit p = some (a && b) ∧
    (bits_or A B).get_bit p = some (a || b) ∧
    (bits_xor A B).get_bit p = some (Bool.xor a b) := by
  refine ⟨?_, ?_, ?_⟩ <;>
    simp [bits_and, bits_or, bits_xor, BitsAnd.get_bit, BitsOr.get_bit, BitsXor.get_bit,
      BitsBinOp.new, BitsBinOp.bit1, BitsBinOp.bit2, ha, hb]

/-- Witness for C1 at the spec's concrete scenario `A = [F,F,T,T]`,
`B = [F,T,F,T]`, `p = 3`. -/
theorem logic_get_bit_truth_table_witness :
    (bits_and (ofList 8 [false, false, true, true])
      (ofList 8 [false, true, false, true])).get_bit 3 = some true ∧
    (bits_or (ofList 8 [false, false, true, true])
      (ofList 8 [false, true, false, true])).get_bit 3 = some true ∧
    (bits_xor (ofList 8 [false, false, true, true])
      (ofList 8 [false, true, false, true])).get_bit 3 = some false :=
  logic_get_bit_truth_table (ofList 8 [false, false, true, true])
    (ofList 8 [false, true, false, true]) 3 (by decide) true true (by decide) (by decide)

/-- Claim C2: the AND, OR and XOR views all report `bit_len` equal to the
minimum of the operands' bit lengths, and this reported length is exactly
the bookkeeping's cached `len` computed at construction (the views are
immutable values, so nothing later changes it). -/
theorem binop_len_is_min_cached {w : Nat} (A B : Bits w) :
    (bits_and A B).bit_len = min A.bit_len B.bit_len ∧
    (bits_or A B).bit_len = min A.bit_len B.bit_len ∧
    (bits_xor A B).bit_len = min A.bit_len B.bit_len ∧
    (bits_and A B).bit_len = (bits_and A B).bin.len ∧
    (bits_or A B).bit_len = (bits_or A B).bin.len ∧
    (bits_xor A B).bit_len = (bits_xor A B).bin.len :=
  ⟨rfl, rfl, rfl, rfl, rfl, rfl⟩

/-- Claim C3: the NOT view reports the operand's bit length unchanged, and
below that length each of its bits is the complement of the operand's. -/
theorem not_view_len_and_complement {w : Nat} (A : Bits w) :
    (bits_not A).bit_len = A.bit_len ∧
    ∀ p : Nat, p < A.bit_len → ∀ a : Bool, A.get_bit p = some a →
      (bits_not A).get_bit p = some (!a) := by
  refine ⟨rfl, ?_⟩
  intro p hp a ha
  simp [bits_not, BitsNot.get_bit, ha]

/-- Witness for C3 at `A = [F,F,T,T]`, `p = 0`. -/
theorem not_view_len_and_complement_witness :
    (bits_not (ofList 8 [false, false, true, true])).get_bit 0 = some true :=
  (not_view_len_and_complement (ofList 8 [false, false, true, true])).2
    0 (by decide) false (by decide)

/-- Claim C10: for each operator, the borrowing constructor and the
consuming constructor build observationally equal views: equal as records,
hence with the same `bit_len`, the same `get_bit` at every position and the
same `get_block` at every index. -/
theorem borrow_consume_constructors_equal {w : Nat} (a b : Bits w) :
    bits_not a = into_bits_not a ∧
    bits_and a b = into_bits_and a b ∧
    bits_or a b = into_bits_or a b ∧
    bits_xor a b = into_bits_xor a b ∧
    (bits_not a).bit_len = (into_bits_not a).bit_len ∧
    (∀ p, (bits_not a).get_bit p = (into_bits_not a).get_bit p) ∧
    (∀ i, (bits_not a).get_block i = (into_bits_not a).get_block i) ∧
    (bits_and a b).bit_len = (into_bits_and a b).bit_len ∧
    (∀ p, (bits_and a b).get_bit p = (into_bits_and a b).get_bit p) ∧
    (∀ i, (bits_and a b).get_block i = (into_bits_and a b).get_block i) ∧
    (bits_or a b).bit_len = (into_bits_or a b).bit_len ∧
    (∀ p, (bits_or a b).get_bit p = (into_bits_or a b).get_bit p) ∧
    (∀ i, (bits_or a b).get_block i = (into_bits_or a b).get_block i) ∧
    (bits_xor a b).bit_len = (into_bits_xor a b).bit_len ∧
    (∀ p, (bits_xor a b).get_bit p = (into_bits_xor a b).get_bit p) ∧
    (∀ i, (bits_xor a b).get_block i = (into_bits_xor a b).get_block i) :=
  ⟨rfl, rfl, rfl, rfl, rfl, fun _ => rfl, fun _ => rfl, rfl, fun _ => rfl, fun _ => rfl,
   rfl, fun _ => rfl, fun _ => rfl, rfl, fun _ => rfl, fun _ => rfl⟩

/-- Claim C4: slicing a binary view applies the identical range to both
operands and rebuilds a fresh bookkeeping, so `(A AND B).bit_slice r` is the
very view `(A.bit_slice r) AND (B.bit_slice r)` — in particular it agrees
with it bit by bit at every position — and its length is the minimum of the
sliced operands' lengths; likewise for OR and XOR. -/
theorem slice_logic_commute {w : Nat} {R : Type} (A B : BitSliceable w R) (r : R) :
    (bits_andS A B).bit_slice r = bits_and (A.bit_slice r) (B.bit_slice r) ∧
    (bits_orS A B).bit_slice r = bits_or (A.bit_slice r) (B.bit_slice r) ∧
    (bits_xorS A B).bit_slice r = bits_xor (A.bit_slice r) (B.bit_slice r) ∧
    (∀ p, ((bits_andS A B).bit_slice r).get_bit p =
      (bits_and (A.bit_slice r) (B.bit_slice r)).get_bit p) ∧
    (∀ p, ((bits_orS A B).bit_slice r).get_bit p =
      (bits_or (A.bit_slice r) (B.bit_slice r)).get_bit p) ∧
    (∀ p, ((bits_xorS A B).bit_slice r).get_bit p =
      (bits_xor (A.bit_slice r) (B.bit_slice r)).get_bit p) ∧
    ((bits_andS A B).bit_slice r).bit_len = min (A.bit_slice r).bit_len (B.bit_slice r).bit_len ∧
    ((bits_orS A B).bit_slice r).bit_len = min (A.bit_slice r).bit_len (B.bit_slice r).bit_len ∧
    ((bits_xorS A B).bit_slice r).bit_len = min (A.bit_slice r).bit_len (B.bit_slice r).bit_len :=
  ⟨rfl, rfl, rfl, fun _ => rfl, fun _ => rfl, fun _ => rfl, rfl, rfl, rfl⟩

/-- Claim C5: slicing a NOT view slices the single operand and rewraps it,
so `(NOT A).bit_slice r` reports the bit length of `A.bit_slice r`, agrees
with `NOT (A.bit_slice r)` at every position, and below that length reports
the complement of each bit of `A.bit_slice r`. -/
theorem not_slice_commute {w : Nat} {R : Type} (A : BitSliceable w R) (r : R) :
    ((bits_notS A).bit_slice r).bit_len = (A.bit_slice r).bit_len ∧
    (∀ p, ((bits_notS A).bit_slice r).get_bit p = (bits_not (A.bit_slice r)).get_bit p) ∧
    ∀ p : Nat, p < (A.bit_slice r).bit_len → ∀ a : Bool,
      (A.bit_slice r).get_bit p = some a →
      ((bits_notS A).bit_slice r).get_bit p = some (!a) := by
  refine ⟨rfl, fun _ => rfl, ?_⟩
  intro p hp a ha
  simp [bits_notS, BitsNot.bit_slice, BitsNot.get_bit, ha]

/-- Witness for C5: `A = [T,F,T]` sliced from index 1 is `[F,T]`; the sliced
NOT view complements its bit 0. -/
theorem not_slice_commute_witness :
    ((bits_notS (ofListS 1 [true, false, true])).bit_slice 1).get_bit 0 = some true :=
  (not_slice_commute (ofListS 1 [true, false, true]) 1).2.2 0 (by decide) false (by decide)

/-- Claim C7: every accessor of every view is a direct pass-through: each
query forwards the position or block index unchanged to the operand(s),
performs no bounds check of its own (the equations hold at every position,
also at and beyond the cached reconciled length), and succeeds exactly when
the operand queries succeed, transforming only the successful value. -/
theorem queries_pass_through {w : Nat} (A B : Bits w) (p : Nat) (i : Nat) :
    (bits_and A B).bin.bit1 p = A.get_bit p ∧
    (bits_and A B).bin.bit2 p = B.get_bit p ∧
    (bits_and A B).bin.block1 i = A.get_block i ∧
    (bits_and A B).bin.block2 i = B.get_block i ∧
    (bits_not A).get_bit p = (A.get_bit p).map (fun b => !b) ∧
    (bits_not A).get_block i = (A.get_block i).map (blockNot w) ∧
    (bits_and A B).get_bit p =
      ((A.get_bit p).bind fun b1 => (B.get_bit p).map fun b2 => b1 && b2) ∧
    (bits_and A B).get_block i =
      ((A.get_block i).bind fun x => (B.get_block i).map fun y => x &&& y) ∧
    (bits_or A B).get_bit p =
      ((A.get_bit p).bind fun b1 => (B.get_bit p).map fun b2 => b1 || b2) ∧
    (bits_or A B).get_block i =
      ((A.get_block i).bind fun x => (B.get_block i).map fun y => x ||| y) ∧
    (bits_xor A B).get_bit p =
      ((A.get_bit p).bind fun b1 => (B.get_bit p).map fun b2 => Bool.xor b1 b2) ∧
    (bits_xor A B).get_block i =
      ((A.get_block i).bind fun x => (B.get_block i).map fun y => x ^^^ y) ∧
    ((bits_not A).get_bit p).isSome = (A.get_bit p).isSome ∧
    ((bits_not A).get_block i).isSome = (A.get_block i).isSome ∧
    ((bits_and A B).get_bit p).isSome = ((A.get_bit p).isSome && (B.get_bit p).isSome) ∧
    ((bits_and A B).get_block i).isSome = ((A.get_block i).isSome && (B.get_block i).isSome) ∧
    ((bits_or A B).get_bit p).isSome = ((A.get_bit p).isSome && (B.get_bit p).isSome) ∧
    ((bits_xor A B).get_bit p).isSome = ((A.get_bit p).isSome && (B.get_bit p).isSome) := by
  cases hA : A.get_bit p <;> cases hB : B.get_bit p <;>
    cases hA2 : A.get_block i <;> cases hB2 : B.get_block i <;>
      simp [bits_not, bits_and, bits_or, bits_xor, BitsNot.get_bit, BitsNot.get_block,
        BitsAnd.get_bit, BitsAnd.get_block, BitsOr.get_bit, BitsOr.get_block,
        BitsXor.get_bit, BitsXor.get_block, BitsBinOp.new, BitsBinOp.bit1, BitsBinOp.bit2,
        BitsBinOp.block1, BitsBinOp.block2, hA, hB, hA2, hB2]

/-- Claim C8: De Morgan — `NOT (A AND B)` and `(NOT A) OR (NOT B)` both
report length `m = min(bit_len A, bit_len B)` and report the same bit at
every position below `m`. -/
theorem de_morgan_views {w : Nat} (A B : Bits w) :
    (bits_not (bits_and A B).toBits).bit_len = min A.bit_len B.bit_len ∧
    (bits_or (bits_not A).toBits (bits_not B).toBits).bit_len = min A.bit_len B.bit_len ∧
    ∀ p : Nat, p < min A.bit_len B.bit_len →
      (bits_not (bits_and A B).toBits).get_bit p =
      (bits_or (bits_not A).toBits (bits_not B).toBits).get_bit p := by
  refine ⟨rfl, rfl, ?_⟩
  intro p hp
  cases hA : A.get_bit p <;> cases hB : B.get_bit p <;>
    simp [bits_not, bits_and, bits_or, BitsNot.toBits, BitsAnd.toBits,
      BitsNot.get_bit, BitsAnd.get_bit, BitsOr.get_bit,
      BitsBinOp.new, BitsBinOp.bit1, BitsBinOp.bit2, hA, hB]

/-- Witness for C8 at `A = [F,F,T,T]`, `B = [F,T,F,T]`, `p = 0`. -/
theorem de_morgan_views_witness :
    (bits_not (bits_and (ofList 8 [false, false, true, true])
      (ofList 8 [false, true, false, true])).toBits).get_bit 0 =
    (bits_or (bits_not (ofList 8 [false, false, true, true])).toBits
      (bits_not (ofList 8 [false, true, false, true])).toBits).get_bit 0 :=
  (de_morgan_views (ofList 8 [false, false, true, true])
    (ofList 8 [false, true, false, true])).2.2 0 (by decide)

/-- Claim C9: at any block index where both operands' `get_block` succeeds,
a binary view's `get_block` is the raw word-wise operator applied to the two
operand blocks, with no masking to the view's reported bit length. -/
theorem get_block_unmasked {w : Nat} (A B : Bits w) (i : Nat) (x y : Nat)
    (hx : A.get_block i = some x) (hy : B.get_block i = some y) :
    (bits_and A B).get_block i = some (x &&& y) ∧
    (bits_or A B).get_block i = some (x ||| y) ∧
    (bits_xor A B).get_block i = some (x ^^^ y) := by
  refine ⟨?_, ?_, ?_⟩ <;>
    simp [bits_and, bits_or, bits_xor, BitsAnd.get_block, BitsOr.get_block, BitsXor.get_block,
      BitsBinOp.new, BitsBinOp.block1, BitsBinOp.block2, hx, hy]

/-- Witness for C9: `A = [T]` (one bit), `B = [T,T,T]`; the OR view's
reconciled length is 1, yet its block 0 is `1 ||| 7 = 7` — the longer
operand's set bits past the reconciled length show through unmasked. -/
theorem get_block_unmasked_witness :
    (bits_or (ofList 3 [true]) (ofList 3 [true, true, true])).get_block 0 = some 7 :=
  (get_block_unmasked (ofList 3 [true]) (ofList 3 [true, true, true]) 0 1 7
    (by decide) (by decide)).2.1

/-- Claim C6: if both operands satisfy block-path/bit-path agreement, then
so do all four logic views — unpacking a view's `get_block` bit by bit
matches its `get_bit` at the corresponding positions below the view's
reported bit length. -/
theorem logic_views_block_bit_agree {w : Nat} (A B : Bits w)
    (hA : blockBitAgree w A) (hB : blockBitAgree w B) :
    blockBitAgree w (bits_not A).toBits ∧
    blockBitAgree w (bits_and A B).toBits ∧
    blockBitAgree w (bits_or A B).toBits ∧
    blockBitAgree w (bits_xor A B).toBits := by
  refine ⟨?_, ?_, ?_, ?_⟩
  · intro i j hj hlt blk hblk
    simp only [bits_not, BitsNot.toBits, BitsNot.bit_len, BitsNot.get_bit,
      BitsNot.get_block] at hlt hblk ⊢
    rcases Option.map_eq_some'.mp hblk with ⟨x, hx, hxe⟩
    subst hxe
    simp [hA i j hj hlt x hx, blockNot_testBit hj]
  · intro i j hj hlt blk hblk
    simp only [bits_and, BitsAnd.toBits, BitsAnd.bit_len, BitsAnd.get_bit, BitsAnd.get_block,
      BitsBinOp.new, BitsBinOp.bit1, BitsBinOp.bit2, BitsBinOp.block1, BitsBinOp.block2]
      at hlt hblk ⊢
    rcases Option.bind_eq_some.mp hblk with ⟨x, hx, hrest⟩
    rcases Option.map_eq_some'.mp hrest with ⟨y, hy, hxy⟩
    subst hxy
    simp [hA i j hj (lt_of_lt_of_le hlt (Nat.min_le_left _ _)) x hx,
      hB i j hj (lt_of_lt_of_le hlt (Nat.min_le_right _ _)) y hy, Nat.testBit_land]
  · intro i j hj hlt blk hblk
    simp only [bits_or, BitsOr.toBits, BitsOr.bit_len, BitsOr.get_bit, BitsOr.get_block,
      BitsBinOp.new, BitsBinOp.bit1, BitsBinOp.bit2, BitsBinOp.block1, BitsBinOp.block2]
      at hlt hblk ⊢
    rcases Option.bind_eq_some.mp hblk with ⟨x, hx, hrest⟩
    rcases Option.map_eq_some'.mp hrest with ⟨y, hy, hxy⟩
    subst hxy
    simp [hA i j hj (lt_of_lt_of_le hlt (Nat.min_le_left _ _)) x hx,
      hB i j hj (lt_of_lt_of_le hlt (Nat.min_le_right _ _)) y hy, Nat.testBit_lor]
  · intro i j hj hlt blk hblk
    simp only [bits_xor, BitsXor.toBits, BitsXor.bit_len, BitsXor.get_bit, BitsXor.get_block,
      BitsBinOp.new, BitsBinOp.bit1, BitsBinOp.bit2, BitsBinOp.block1, BitsBinOp.block2]
      at hlt hblk ⊢
    rcases Option.bind_eq_some.mp hblk with ⟨x, hx, hrest⟩
    rcases Option.map_eq_some'.mp hrest with ⟨y, hy, hxy⟩
    subst hxy
    simp [hA i j hj (lt_of_lt_of_le hlt (Nat.min_le_left _ _)) x hx,
      hB i j hj (lt_of_lt_of_le hlt (Nat.min_le_right _ _)) y hy, Nat.testBit_xor]

/-- A one-bit concrete operand `[T]` satisfies block-path/bit-path agreement. -/
theorem agree_single_true : blockBitAgree 1 (ofList 1 [true]) := by
  intro i j hj hlt blk hblk
  have hj0 : j = 0 := by omega
  subst hj0
  simp [ofList] at hlt
  have hi0 : i = 0 := by omega
  subst hi0
  simp [ofList, packBits] at hblk
  subst hblk
  decide

/-- A one-bit concrete operand `[F]` satisfies block-path/bit-path agreement. -/
theorem agree_single_false : blockBitAgree 1 (ofList 1 [false]) := by
  intro i j hj hlt blk hblk
  have hj0 : j = 0 := by omega
  subst hj0
  simp [ofList] at hlt
  have hi0 : i = 0 := by omega
  subst hi0
  simp [ofList, packBits] at hblk
  subst hblk
  decide

/-- Witness for C6 at the agreeing operands `[T]` and `[F]`. -/
theorem logic_views_block_bit_agree_witness :
    blockBitAgree 1 (bits_not (ofList 1 [true])).toBits ∧
    blockBitAgree 1 (bits_and (ofList 1 [true]) (ofList 1 [false])).toBits ∧
    blockBitAgree 1 (bits_or (ofList 1 [true]) (ofList 1 [false])).toBits ∧
    blockBitAgree 1 (bits_xor (ofList 1 [true]) (ofList 1 [false])).toBits :=
  logic_views_block_bit_agree (ofList 1 [true]) (ofList 1 [false])
    agree_single_true agree_single_false
